import Mathlib

/-!
Shallow embedding of the region-detection engine of the
P&ID / Electrical Drawing Validator (package `drawing_validator.detection`).

Conventions of the embedding:
* Python `int` coordinates and sizes become `ℤ`; Python `float` scores and
  thresholds become `ℚ` (the code only compares, adds, multiplies and divides
  these values, so the idealisation from binary floats to rationals preserves
  every property stated here).
* Pixel-level OpenCV primitives (`cv2.matchTemplate`, `cv2.findContours`,
  `cv2.contourArea`, ...) are external library calls; their numeric outputs
  (correlation scores, contour features) enter the embedding as explicit
  arguments, and everything the repository's own code does with them is
  embedded faithfully.
* Python's `sorted(key=..., reverse=True)` is a stable descending sort; it is
  modelled by Mathlib's stable `List.insertionSort` with the relation
  "left confidence ≥ right confidence".
* The greedy overlap-suppression `while` loop is modelled by a fuel-indexed
  structural recursion (`nmsRun`), run with fuel = list length, which is
  always sufficient because each iteration removes at least the popped head.
-/

namespace DrawingValidator

/-- `detection_models.DetectionConfig`: tunable parameters, defaults as in the
source.  The class performs no validation of its own. -/
structure DetectionConfig where
  template_confidence_threshold : ℚ := 13/20
  template_scale_range : ℚ × ℚ := (1/2, 3/2)
  template_scale_steps : ℕ := 10
  contour_min_area : ℚ := 500
  contour_max_area : ℚ := 10000
  contour_min_aspect_ratio : ℚ := 2
  contour_max_aspect_ratio : ℚ := 8
  contour_min_width : ℤ := 100
  contour_max_width : ℤ := 800
  contour_min_height : ℤ := 30
  contour_max_height : ℤ := 200
  color_min_area : ℚ := 300
  color_max_area : ℚ := 5000
  color_min_circularity : ℚ := 3/5
  min_confidence : ℚ := 13/20
  nms_threshold : ℚ := 3/10
  deriving Repr, DecidableEq

/-- `detection_models.DetectedRegion`: a candidate rectangle with metadata. -/
structure DetectedRegion where
  x : ℤ
  y : ℤ
  width : ℤ
  height : ℤ
  confidence : ℚ
  detection_method : String
  template_name : Option String := none
  color : Option String := none
  page_num : ℤ := 0
  deriving Repr, DecidableEq

namespace DetectedRegion

/-- `DetectedRegion.area` property: `width * height`. -/
def area (r : DetectedRegion) : ℤ := r.width * r.height

/-- `DetectedRegion.overlaps_with(other, threshold)`: computes the
intersection rectangle via max/min of the corners, returns `False` outright
when the intersection is empty in either axis (strictly), otherwise compares
`intersection/union` (0 when the union is not positive) strictly against the
threshold. -/
def overlaps_with (self other : DetectedRegion) (threshold : ℚ) : Bool :=
  let x1 := max self.x other.x
  let y1 := max self.y other.y
  let x2 := min (self.x + self.width) (other.x + other.width)
  let y2 := min (self.y + self.height) (other.y + other.height)
  if x2 < x1 ∨ y2 < y1 then false
  else
    let intersection : ℤ := (x2 - x1) * (y2 - y1)
    let union : ℤ := self.area + other.area - intersection
    let iou : ℚ := if 0 < union then (intersection : ℚ) / (union : ℚ) else 0
    decide (threshold < iou)

end DetectedRegion

/-- Modelled from the spec (§4.4 / glossary): `IoU of two regions =
intersection area / (area₁ + area₂ − intersection area); if boxes do not
intersect, IoU = 0; if union = 0 (both degenerate), IoU is defined as 0`. -/
def iouSpec (r1 r2 : DetectedRegion) : ℚ :=
  let interW : ℤ := min (r1.x + r1.width) (r2.x + r2.width) - max r1.x r2.x
  let interH : ℤ := min (r1.y + r1.height) (r2.y + r2.height) - max r1.y r2.y
  if interW ≤ 0 ∨ interH ≤ 0 then 0
  else
    let inter : ℤ := interW * interH
    let uni : ℤ := r1.area + r2.area - inter
    if uni = 0 then 0 else (inter : ℚ) / (uni : ℚ)

/-- The comparison used by every `sorted(..., key=lambda r: r.confidence,
reverse=True)` in the detection package: left argument stays before the right
one when its confidence is at least as large (Python's sort is stable). -/
def confGe (a b : DetectedRegion) : Prop := b.confidence ≤ a.confidence

instance : DecidableRel confGe := fun a b =>
  inferInstanceAs (Decidable (b.confidence ≤ a.confidence))

instance : IsTotal DetectedRegion confGe := ⟨fun a b => le_total b.confidence a.confidence⟩

instance : IsTrans DetectedRegion confGe := ⟨fun _ _ _ h1 h2 => le_trans h2 h1⟩

/-- Stable descending-by-confidence sort, the model of
`sorted(regions, key=lambda r: r.confidence, reverse=True)`. -/
def sortDesc (l : List DetectedRegion) : List DetectedRegion :=
  List.insertionSort confGe l

/-- The greedy suppression `while` loop shared by all four call sites, with a
pluggable discard test: pop the head, keep it, drop every remaining candidate
the discard test accepts against the head.  `fuel` makes the recursion
structural; fuel = initial length always suffices. -/
def nmsRun (discard : DetectedRegion → DetectedRegion → Bool) :
    ℕ → List DetectedRegion → List DetectedRegion
  | 0, _ => []
  | _ + 1, [] => []
  | n + 1, c :: rest =>
      c :: nmsRun discard n (rest.filter fun r => ! discard c r)

/-- The shared overlap-suppression operation
(`TemplateMatcher._apply_non_max_suppression`,
`ContourDetector._remove_overlaps`, `ColorDetector._remove_overlaps`,
`SealDetector._consolidate_detections` — all four bodies are identical up to
the threshold): early-return `[]` on an empty list, sort descending by
confidence, then greedily keep heads and drop candidates that
`overlaps_with` the kept head at the given threshold. -/
def suppress (threshold : ℚ) (regions : List DetectedRegion) : List DetectedRegion :=
  if regions.isEmpty then []
  else
    let sorted := sortDesc regions
    nmsRun (fun current r => current.overlaps_with r threshold) sorted.length sorted

/-- Modelled from the spec (§4.4): the reference overlap-suppression
definition — sort descending by confidence, repeatedly move the
highest-remaining candidate into the kept set and discard every remaining
candidate whose IoU (as `iouSpec`) with it exceeds τ. -/
def nmsSpec (τ : ℚ) (candidates : List DetectedRegion) : List DetectedRegion :=
  let sorted := sortDesc candidates
  nmsRun (fun current r => decide (τ < iouSpec current r)) sorted.length sorted

/-- Python's `int(...)` applied to a nonnegative-or-negative float: truncation
toward zero. -/
def pyInt (q : ℚ) : ℤ := if 0 ≤ q then ⌊q⌋ else -⌊-q⌋

/-- `numpy.linspace(a, b, n)`: `n` evenly spaced points from `a` to `b`
inclusive (`[a]` when `n = 1`, `[]` when `n = 0`). -/
def linspace (a b : ℚ) : ℕ → List ℚ
  | 0 => []
  | 1 => [a]
  | n + 2 => (List.range (n + 2)).map fun i => a + (b - a) * i / (n + 1)

namespace TemplateMatcher

/-- `TemplateMatcher._resize_template`, tracked at the level of the resulting
image dimensions: the new dimensions are `int(old * scale)`; if either new
dimension would drop below 10 pixels the ORIGINAL template (its original
dimensions) is returned instead. -/
def resize_template (tw th : ℤ) (scale : ℚ) : ℤ × ℤ :=
  let new_width := pyInt ((tw : ℚ) * scale)
  let new_height := pyInt ((th : ℚ) * scale)
  if new_width < 10 ∨ new_height < 10 then (tw, th)
  else (new_width, new_height)

/-- One iteration of the scale loop in
`TemplateMatcher._match_template_multiscale`.  `score sw sh x y` stands for
the value `cv2.matchTemplate(image, scaled_template, TM_CCOEFF_NORMED)[y, x]`
of the external correlation map for the resized template of dimensions
`(sw, sh)`; the map has shape `(imgH - sh + 1, imgW - sw + 1)` and
`numpy.where` enumerates it row-major.  The scale is skipped entirely when
the (possibly fallen-back) template does not fit inside the image. -/
def match_at_scale (cfg : DetectionConfig) (score : ℤ → ℤ → ℤ → ℤ → ℚ)
    (imgW imgH tw th : ℤ) (template_name : String) (scale : ℚ) :
    List DetectedRegion :=
  let sw := (resize_template tw th scale).1
  let sh := (resize_template tw th scale).2
  if imgH < sh ∨ imgW < sw then []
  else
    (List.range (imgH - sh + 1).toNat).flatMap fun yy =>
      (List.range (imgW - sw + 1).toNat).filterMap fun xx =>
        let c := score sw sh (xx : ℤ) (yy : ℤ)
        if cfg.template_confidence_threshold ≤ c then
          some { x := (xx : ℤ), y := (yy : ℤ), width := sw, height := sh,
                 confidence := c, detection_method := "template_matching",
                 template_name := some template_name }
        else none

/-- `TemplateMatcher._match_template_multiscale`: evaluate every scale of
`numpy.linspace(scale_start, scale_end, template_scale_steps)` in order and
concatenate the per-scale candidates. -/
def match_template_multiscale (cfg : DetectionConfig)
    (score : ℤ → ℤ → ℤ → ℤ → ℚ) (imgW imgH tw th : ℤ)
    (template_name : String) : List DetectedRegion :=
  (linspace cfg.template_scale_range.1 cfg.template_scale_range.2
      cfg.template_scale_steps).flatMap
    (match_at_scale cfg score imgW imgH tw th template_name)

/-- `TemplateMatcher.detect`: `[]` immediately when no templates are loaded,
otherwise multi-scale matching of every loaded template (given by name and
dimensions, with its correlation maps `score name`) followed by the shared
overlap suppression at the configured `nms_threshold`. -/
def detect (cfg : DetectionConfig) (templates : List (String × ℤ × ℤ))
    (score : String → ℤ → ℤ → ℤ → ℤ → ℚ) (imgW imgH : ℤ) :
    List DetectedRegion :=
  if templates.isEmpty then []
  else
    suppress cfg.nms_threshold
      (templates.flatMap fun t =>
        match_template_multiscale cfg (score t.1) imgW imgH t.2.1 t.2.2 t.1)

end TemplateMatcher

namespace ContourDetector

/-- `ContourDetector._is_signature_block`: all four configured bounds checks
(contour area, aspect ratio, bounding-box width, bounding-box height), each a
strict two-sided comparison, combined with `and`. -/
def is_signature_block (cfg : DetectionConfig) (area aspect_ratio : ℚ)
    (width height : ℤ) : Bool :=
  let area_ok := decide (cfg.contour_min_area < area ∧ area < cfg.contour_max_area)
  let aspect_ok := decide (cfg.contour_min_aspect_ratio < aspect_ratio ∧
    aspect_ratio < cfg.contour_max_aspect_ratio)
  let width_ok := decide (cfg.contour_min_width < width ∧ width < cfg.contour_max_width)
  let height_ok := decide (cfg.contour_min_height < height ∧ height < cfg.contour_max_height)
  area_ok && aspect_ok && width_ok && height_ok

/-- `ContourDetector._calculate_confidence`: base 0.5, plus rectangularity
(contour area / bounding-box area) × 0.2 when the bounding box is nonempty,
plus (1 − min(|aspect − 4| / 4, 1)) × 0.2, plus solidity
(contour area / convex-hull area) × 0.1 when the hull area is positive,
clamped to [0, 1].  `area` and `hull_area` are the external
`cv2.contourArea` values of the contour and of its convex hull. -/
def calculate_confidence (area aspect_ratio : ℚ) (w h : ℤ)
    (hull_area : ℚ) : ℚ :=
  let confidence : ℚ := 1/2
  let bbox_area : ℚ := (w : ℚ) * (h : ℚ)
  let confidence := if 0 < bbox_area then confidence + area / bbox_area * (1/5)
    else confidence
  let aspect_score : ℚ := 1 - min (|aspect_ratio - 4| / 4) 1
  let confidence := confidence + aspect_score * (1/5)
  let confidence := if 0 < hull_area then confidence + area / hull_area * (1/10)
    else confidence
  max 0 (min 1 confidence)

/-- The per-contour body of the loop in `ContourDetector.detect`: a contour is
described by its external features — bounding rectangle `(x, y, w, h)` from
`cv2.boundingRect`, `area` from `cv2.contourArea`, and the `cv2.contourArea`
of its convex hull.  Contours of zero area are skipped before scoring;
otherwise a region is emitted exactly when `_is_signature_block` passes. -/
def detect_region (cfg : DetectionConfig) (area hull_area : ℚ)
    (x y w h : ℤ) : Option DetectedRegion :=
  if area = 0 then none
  else
    let aspect_ratio : ℚ := if 0 < h then (w : ℚ) / (h : ℚ) else 0
    if is_signature_block cfg area aspect_ratio w h then
      some { x := x, y := y, width := w, height := h,
             confidence := calculate_confidence area aspect_ratio w h hull_area,
             detection_method := "contour_detection" }
    else none

end ContourDetector

namespace ColorDetector

/-- `ColorDetector._calculate_confidence`: base 0.6, plus circularity × 0.2
in the circular case or (1 − |1 − aspect_ratio|) × 0.15 in the rectangular
case, plus (1 − min(|area − ideal| / ideal, 1)) × 0.1 where ideal is the
midpoint of the configured color area range, clamped to [0, 1].  The Python
code raises on ideal = 0 instead of producing a value; the embedding is
only ever applied with a nonzero ideal (see the hypotheses of the theorems
below). -/
def calculate_confidence (cfg : DetectionConfig)
    (circularity area aspect_ratio : ℚ) (is_circular : Bool) : ℚ :=
  let confidence : ℚ := 3/5
  let confidence := if is_circular then confidence + circularity * (1/5)
    else confidence + (1 - |1 - aspect_ratio|) * (3/20)
  let ideal_area : ℚ := (cfg.color_min_area + cfg.color_max_area) / 2
  let area_score : ℚ := 1 - min (|area - ideal_area| / ideal_area) 1
  let confidence := confidence + area_score * (1/10)
  max 0 (min 1 confidence)

/-- The per-contour body of the loop in `ColorDetector._detect_color_range`:
a mask contour is described by its external features — `area` and
`perimeter` from `cv2.contourArea` / `cv2.arcLength`, its circularity
`4·π·area/perimeter²` (supplied as a value, since π is irrational), and the
bounding rectangle.  The contour is dropped unless its area is strictly
inside the configured color area bounds and the perimeter is nonzero; a
region is emitted when the shape is circular OR squarish. -/
def detect_region (cfg : DetectionConfig)
    (area perimeter circularity : ℚ) (x y w h : ℤ)
    (display_color : String) : Option DetectedRegion :=
  if ¬ (cfg.color_min_area < area ∧ area < cfg.color_max_area) then none
  else if perimeter = 0 then none
  else
    let is_circular := decide (cfg.color_min_circularity < circularity)
    let aspect_ratio : ℚ := if 0 < h then (w : ℚ) / (h : ℚ) else 0
    let is_rectangular := decide ((1/2 : ℚ) < aspect_ratio ∧ aspect_ratio < 2)
    if is_circular || is_rectangular then
      some { x := x, y := y, width := w, height := h,
             confidence := calculate_confidence cfg circularity area
               aspect_ratio is_circular,
             detection_method := "color_detection", color := some display_color }
    else none

end ColorDetector

/-- `detection_models.DetectionResult` (the fields the detection engine
fills; the wall-clock `processing_time` is outside the embedding). -/
structure DetectionResult where
  page_num : ℤ
  regions : List DetectedRegion
  image_dimensions : ℤ × ℤ
  deriving Repr, DecidableEq

namespace SealDetector

/-- `SealDetector._consolidate_detections`: the shared suppression at the
configured global `nms_threshold`. -/
def consolidate_detections (cfg : DetectionConfig)
    (detections : List DetectedRegion) : List DetectedRegion :=
  suppress cfg.nms_threshold detections

/-- `SealDetector.detect` downstream of the three per-method detectors (whose
pixel processing is external): concatenate the three independently-suppressed
candidate lists, consolidate globally, filter by `min_confidence`, sort
descending by confidence, stamp the caller's page number on every survivor,
and package the result. -/
def detect (cfg : DetectionConfig) (imgW imgH : ℤ)
    (template_results contour_results color_results : List DetectedRegion)
    (page_num : ℤ) : DetectionResult :=
  let all_results := template_results ++ contour_results ++ color_results
  let consolidated_results := consolidate_detections cfg all_results
  let filtered_results := consolidated_results.filter fun r =>
    decide (cfg.min_confidence ≤ r.confidence)
  let sorted_results := sortDesc filtered_results
  { page_num := page_num,
    regions := sorted_results.map fun r => { r with page_num := page_num },
    image_dimensions := (imgW, imgH) }

end SealDetector

/-! ## Basic lemmas about the overlap test and the IoU -/

/-- The spec-side IoU is symmetric in its two arguments. -/
theorem iouSpec_comm (r1 r2 : DetectedRegion) : iouSpec r1 r2 = iouSpec r2 r1 := by
  simp only [iouSpec]
  rw [min_comm (r2.x + r2.width) (r1.x + r1.width), max_comm r2.x r1.x,
    min_comm (r2.y + r2.height) (r1.y + r1.height), max_comm r2.y r1.y,
    add_comm r2.area r1.area]

/-- For a nonnegative threshold, the code's `overlaps_with` decides exactly
"spec IoU strictly above the threshold".  (For a negative threshold the two
sides genuinely differ on disjoint boxes: the code returns `False` early
while the spec IoU of 0 exceeds the threshold.) -/
theorem overlaps_with_eq_decide (r1 r2 : DetectedRegion) {τ : ℚ} (hτ : 0 ≤ τ) :
    r1.overlaps_with r2 τ = decide (τ < iouSpec r1 r2) := by
  simp only [DetectedRegion.overlaps_with, iouSpec]
  by_cases hxy : min (r1.x + r1.width) (r2.x + r2.width) < max r1.x r2.x ∨
      min (r1.y + r1.height) (r2.y + r2.height) < max r1.y r2.y
  · rw [if_pos hxy, if_pos (by omega :
      min (r1.x + r1.width) (r2.x + r2.width) - max r1.x r2.x ≤ 0 ∨
      min (r1.y + r1.height) (r2.y + r2.height) - max r1.y r2.y ≤ 0)]
    simp [not_lt.mpr hτ]
  · rw [if_neg hxy]
    push_neg at hxy
    obtain ⟨hx, hy⟩ := hxy
    by_cases hB : min (r1.x + r1.width) (r2.x + r2.width) - max r1.x r2.x ≤ 0 ∨
        min (r1.y + r1.height) (r2.y + r2.height) - max r1.y r2.y ≤ 0
    · rw [if_pos hB]
      have hinter : (min (r1.x + r1.width) (r2.x + r2.width) - max r1.x r2.x) *
          (min (r1.y + r1.height) (r2.y + r2.height) - max r1.y r2.y) = 0 := by
        rcases hB with h | h
        · rw [(by omega : min (r1.x + r1.width) (r2.x + r2.width) - max r1.x r2.x = 0),
            zero_mul]
        · rw [(by omega : min (r1.y + r1.height) (r2.y + r2.height) - max r1.y r2.y = 0),
            mul_zero]
      rw [hinter]
      split <;> simp [not_lt.mpr hτ]
    · rw [if_neg hB]
      push_neg at hB
      obtain ⟨hIW, hIH⟩ := hB
      rcases lt_trichotomy (r1.area + r2.area -
          (min (r1.x + r1.width) (r2.x + r2.width) - max r1.x r2.x) *
          (min (r1.y + r1.height) (r2.y + r2.height) - max r1.y r2.y)) 0 with hU | hU | hU
      · rw [if_neg (by omega), if_neg (by omega)]
        have hq : (((min (r1.x + r1.width) (r2.x + r2.width) - max r1.x r2.x) *
            (min (r1.y + r1.height) (r2.y + r2.height) - max r1.y r2.y) : ℤ) : ℚ) /
            ((r1.area + r2.area -
              (min (r1.x + r1.width) (r2.x + r2.width) - max r1.x r2.x) *
              (min (r1.y + r1.height) (r2.y + r2.height) - max r1.y r2.y) : ℤ) : ℚ) < 0 := by
          apply div_neg_of_pos_of_neg
          · exact_mod_cast mul_pos (by omega : (0:ℤ) <
              min (r1.x + r1.width) (r2.x + r2.width) - max r1.x r2.x)
              (by omega : (0:ℤ) < min (r1.y + r1.height) (r2.y + r2.height) - max r1.y r2.y)
          · exact_mod_cast hU
        rw [decide_eq_false (not_lt.mpr hτ),
          decide_eq_false (not_lt.mpr (hq.le.trans hτ))]
      · rw [if_neg (by omega), if_pos hU]
      · rw [if_pos hU, if_neg (by omega)]

/-- If the code's overlap test rejects a pair (at a nonnegative threshold),
the spec IoU of the pair is at most the threshold. -/
theorem iouSpec_le_of_not_overlaps {r1 r2 : DetectedRegion} {τ : ℚ} (hτ : 0 ≤ τ)
    (h : r1.overlaps_with r2 τ = false) : iouSpec r1 r2 ≤ τ := by
  have := overlaps_with_eq_decide r1 r2 hτ
  rw [h] at this
  exact not_lt.mp (of_decide_eq_false this.symm)

/-! ## Lemmas about the greedy suppression loop -/

/-- Whatever the fuel, every region kept by the suppression loop comes from
the input list. -/
theorem nmsRun_subset (d : DetectedRegion → DetectedRegion → Bool) :
    ∀ (n : ℕ) (l : List DetectedRegion), ∀ r ∈ nmsRun d n l, r ∈ l := by
  intro n
  induction n with
  | zero => intro l r h; simp [nmsRun] at h
  | succ n ih =>
    intro l r h
    match l with
    | [] => simp [nmsRun] at h
    | c :: rest =>
      simp only [nmsRun, List.mem_cons] at h ⊢
      rcases h with h | h
      · exact Or.inl h
      · exact Or.inr (List.mem_of_mem_filter (ih _ r h))

/-- The kept set of the suppression loop is pairwise-compatible: the discard
test fails between any earlier kept region and any later one. -/
theorem nmsRun_pairwise (d : DetectedRegion → DetectedRegion → Bool)
    (P : DetectedRegion → DetectedRegion → Prop)
    (hd : ∀ a b, d a b = false → P a b) :
    ∀ (n : ℕ) (l : List DetectedRegion), (nmsRun d n l).Pairwise P := by
  intro n
  induction n with
  | zero => intro l; simp [nmsRun]
  | succ n ih =>
    intro l
    match l with
    | [] => simp [nmsRun]
    | c :: rest =>
      simp only [nmsRun]
      refine List.Pairwise.cons ?_ (ih _)
      intro r hr
      have hrf := nmsRun_subset d n _ r hr
      rw [List.mem_filter] at hrf
      exact hd c r (by simpa using hrf.2)

/-- Pointwise equal discard tests give equal suppression runs. -/
theorem nmsRun_congr {d₁ d₂ : DetectedRegion → DetectedRegion → Bool}
    (h : ∀ a b, d₁ a b = d₂ a b) :
    ∀ (n : ℕ) (l : List DetectedRegion), nmsRun d₁ n l = nmsRun d₂ n l := by
  intro n
  induction n with
  | zero => intro l; rfl
  | succ n ih =>
    intro l
    match l with
    | [] => rfl
    | c :: rest =>
      simp only [nmsRun]
      rw [show (fun r => ! d₁ c r) = (fun r => ! d₂ c r) from funext fun r => by rw [h],
        ih]

/-- Any fuel at least the list length produces the same suppression run: the
fuel-indexed recursion is a faithful model of the source's `while` loop. -/
theorem nmsRun_fuel (d : DetectedRegion → DetectedRegion → Bool) :
    ∀ (n m : ℕ) (l : List DetectedRegion), l.length ≤ n → l.length ≤ m →
      nmsRun d n l = nmsRun d m l := by
  intro n
  induction n with
  | zero =>
    intro m l h1 _
    rw [List.length_eq_zero.mp (Nat.le_zero.mp h1)]
    cases m <;> rfl
  | succ n ih =>
    intro m l h1 h2
    match l, m with
    | [], m => cases m <;> rfl
    | c :: rest, 0 => simp at h2
    | c :: rest, m + 1 =>
      simp only [nmsRun]
      rw [ih m _
        (le_trans (List.length_filter_le _ _) (by simpa using h1))
        (le_trans (List.length_filter_le _ _) (by simpa using h2))]

/-! ## Lemmas about the stable sort and the shared suppression -/

/-- The stable sort is a permutation of its input. -/
theorem sortDesc_perm (l : List DetectedRegion) : List.Perm (sortDesc l) l :=
  List.perm_insertionSort confGe l

/-- The stable sort is sorted by non-increasing confidence. -/
theorem sortDesc_sorted (l : List DetectedRegion) :
    (sortDesc l).Pairwise confGe :=
  List.sorted_insertionSort confGe l

/-- Everything the shared suppression keeps comes from the candidate list. -/
theorem suppress_subset (τ : ℚ) (l : List DetectedRegion) :
    ∀ r ∈ suppress τ l, r ∈ l := by
  intro r hr
  unfold suppress at hr
  split at hr
  · simp at hr
  · exact (sortDesc_perm l).subset (nmsRun_subset _ _ _ r hr)

/-- Post-suppression pairwise invariant: at a nonnegative threshold, any two
kept regions (in kept order) have spec IoU at most the threshold. -/
theorem suppress_pairwise {τ : ℚ} (hτ : 0 ≤ τ) (l : List DetectedRegion) :
    (suppress τ l).Pairwise (fun a b => iouSpec a b ≤ τ) := by
  unfold suppress
  split
  · simp
  · exact nmsRun_pairwise _ _
      (fun a b h => iouSpec_le_of_not_overlaps hτ (by simpa using h)) _ _

/-- At a nonnegative threshold, the shared suppression equals the spec's
reference suppression. -/
theorem suppress_eq_nmsSpec {τ : ℚ} (hτ : 0 ≤ τ) (l : List DetectedRegion) :
    suppress τ l = nmsSpec τ l := by
  unfold suppress nmsSpec
  by_cases h : l.isEmpty
  · rw [if_pos h]
    have hl : l = [] := by simpa using h
    subst hl
    rfl
  · rw [if_neg h]
    exact nmsRun_congr (fun a b => overlaps_with_eq_decide a b hτ) _ _

/-- Sorting a two-element list descending by confidence. -/
theorem sortDesc_pair (r1 r2 : DetectedRegion) :
    sortDesc [r1, r2] =
      if r2.confidence ≤ r1.confidence then [r1, r2] else [r2, r1] := by
  by_cases h : r2.confidence ≤ r1.confidence
  · rw [if_pos h]
    simp [sortDesc, List.insertionSort, List.orderedInsert, confGe, h]
  · rw [if_neg h]
    simp [sortDesc, List.insertionSort, List.orderedInsert, confGe, h]

/-! ## Concrete sample regions used by witnesses and counterexamples -/

def sampleHi : DetectedRegion :=
  { x := 0, y := 0, width := 10, height := 10, confidence := 9/10,
    detection_method := "template_matching" }

def sampleLo : DetectedRegion :=
  { x := 0, y := 0, width := 10, height := 10, confidence := 7/10,
    detection_method := "color_detection" }

def sampleFar : DetectedRegion :=
  { x := 100, y := 100, width := 10, height := 10, confidence := 7/10,
    detection_method := "contour_detection" }

/-! ## Claim theorems -/

/-- C10: the overlap test is symmetric — for every pair of regions and every
threshold, `r1.overlaps_with(r2, t) = r2.overlaps_with(r1, t)`, and the
underlying IoU computation is itself symmetric in its two arguments. -/
theorem overlaps_with_symm :
    ∀ (r1 r2 : DetectedRegion) (t : ℚ),
      r1.overlaps_with r2 t = r2.overlaps_with r1 t ∧
      iouSpec r1 r2 = iouSpec r2 r1 := by
  intro r1 r2 t
  refine ⟨?_, iouSpec_comm r1 r2⟩
  simp only [DetectedRegion.overlaps_with]
  rw [min_comm (r2.x + r2.width) (r1.x + r1.width), max_comm r2.x r1.x,
    min_comm (r2.y + r2.height) (r1.y + r1.height), max_comm r2.y r1.y,
    add_comm r2.area r1.area]

unseal Rat.add Rat.mul Rat.inv Rat.sub in
/-- C2 (counterexample): at the threshold τ = −1 — which the claim's "every
threshold tau" includes — the code's shared suppression keeps both of two
disjoint candidates (the code's overlap test returns `False` early for
disjoint boxes), while the reference definition discards the second one
(its IoU of 0 exceeds −1).  So the two operations are not equal for every
threshold. -/
theorem suppress_negative_threshold_cex :
    suppress (-1) [sampleHi, sampleFar] ≠ nmsSpec (-1) [sampleHi, sampleFar] := by
  decide

/-- C2 (amended: restricted to nonnegative thresholds, which covers every
threshold the repository uses — 0.3, 0.5 and the documented 0–1 range of
`nms_threshold`): the shared overlap-suppression operation equals the spec's
reference definition; moreover two non-overlapping candidates have IoU 0 and
both survive suppression against each other, and of two candidates with IoU
above τ the higher-confidence one is kept and the other discarded. -/
theorem suppress_matches_spec (τ : ℚ) (hτ : 0 ≤ τ) :
    (∀ l, suppress τ l = nmsSpec τ l) ∧
    (∀ r1 r2 : DetectedRegion,
      (min (r1.x + r1.width) (r2.x + r2.width) ≤ max r1.x r2.x ∨
       min (r1.y + r1.height) (r2.y + r2.height) ≤ max r1.y r2.y) →
      iouSpec r1 r2 = 0 ∧
      r1 ∈ suppress τ [r1, r2] ∧ r2 ∈ suppress τ [r1, r2]) ∧
    (∀ r1 r2 : DetectedRegion, r2.confidence < r1.confidence →
      τ < iouSpec r1 r2 → suppress τ [r1, r2] = [r1]) := by
  refine ⟨fun l => suppress_eq_nmsSpec hτ l, ?_, ?_⟩
  · intro r1 r2 hd
    have hio : iouSpec r1 r2 = 0 := by
      unfold iouSpec
      rw [if_pos (by omega :
        min (r1.x + r1.width) (r2.x + r2.width) - max r1.x r2.x ≤ 0 ∨
        min (r1.y + r1.height) (r2.y + r2.height) - max r1.y r2.y ≤ 0)]
    have h12 : r1.overlaps_with r2 τ = false := by
      rw [overlaps_with_eq_decide r1 r2 hτ, hio]
      exact decide_eq_false (not_lt.mpr hτ)
    have h21 : r2.overlaps_with r1 τ = false := by
      rw [overlaps_with_eq_decide r2 r1 hτ, ← iouSpec_comm, hio]
      exact decide_eq_false (not_lt.mpr hτ)
    refine ⟨hio, ?_, ?_⟩ <;>
    · unfold suppress
      rw [if_neg (by simp), sortDesc_pair]
      by_cases hc : r2.confidence ≤ r1.confidence
      · rw [if_pos hc]
        simp [nmsRun, h12]
      · rw [if_neg hc]
        simp [nmsRun, h21]
  · intro r1 r2 hconf hiou
    have h12 : r1.overlaps_with r2 τ = true := by
      rw [overlaps_with_eq_decide r1 r2 hτ]
      exact decide_eq_true hiou
    unfold suppress
    rw [if_neg (by simp), sortDesc_pair, if_pos hconf.le]
    simp [nmsRun, h12]

/-- C2 (witness): at the actual default global threshold 0.3, the amended
theorem applies; the shared suppression and the reference definition agree
on a concrete candidate pair. -/
theorem suppress_matches_spec_witness :
    (0 : ℚ) ≤ 3/10 ∧
    suppress (3/10) [sampleHi, sampleFar] = nmsSpec (3/10) [sampleHi, sampleFar] :=
  ⟨by norm_num, (suppress_matches_spec (3/10) (by norm_num)).1 [sampleHi, sampleFar]⟩

/-- Membership in the regions of a `SealDetector.detect` result, unfolded:
exactly the consolidated regions that pass the confidence filter, with the
caller's page number stamped on. -/
theorem mem_seal_detect_iff (cfg : DetectionConfig) (imgW imgH : ℤ)
    (tr cr colr : List DetectedRegion) (page : ℤ) (r : DetectedRegion) :
    r ∈ (SealDetector.detect cfg imgW imgH tr cr colr page).regions ↔
    ∃ r0, r0 ∈ SealDetector.consolidate_detections cfg (tr ++ cr ++ colr) ∧
      cfg.min_confidence ≤ r0.confidence ∧ r = { r0 with page_num := page } := by
  simp only [SealDetector.detect, List.mem_map]
  constructor
  · rintro ⟨r0, hr0, rfl⟩
    have hf := (sortDesc_perm _).subset hr0
    rw [List.mem_filter] at hf
    exact ⟨r0, hf.1, by simpa using hf.2, rfl⟩
  · rintro ⟨r0, h1, h2, rfl⟩
    refine ⟨r0, ?_, rfl⟩
    exact (sortDesc_perm _).mem_iff.mpr (List.mem_filter.mpr ⟨h1, by simpa using h2⟩)

/-- C1: any two regions (in output order) of a `SealDetector.detect` result
have IoU at most the configured global `nms_threshold` — in both argument
orders, so the bound holds for every pair of distinct returned regions.  The
hypothesis `0 ≤ nms_threshold` reflects the documented 0–1 range of the
threshold. -/
theorem seal_detect_pairwise_iou (cfg : DetectionConfig) (imgW imgH : ℤ)
    (tr cr colr : List DetectedRegion) (page : ℤ)
    (hτ : 0 ≤ cfg.nms_threshold) :
    (SealDetector.detect cfg imgW imgH tr cr colr page).regions.Pairwise
      (fun a b => iouSpec a b ≤ cfg.nms_threshold ∧
        iouSpec b a ≤ cfg.nms_threshold) := by
  simp only [SealDetector.detect]
  rw [List.pairwise_map]
  have h0 : (suppress cfg.nms_threshold (tr ++ cr ++ colr)).Pairwise
      (fun a b => iouSpec a b ≤ cfg.nms_threshold) := suppress_pairwise hτ _
  have h2 : ((suppress cfg.nms_threshold (tr ++ cr ++ colr)).filter
      (fun r => decide (cfg.min_confidence ≤ r.confidence))).Pairwise
      (fun a b => iouSpec a b ≤ cfg.nms_threshold ∧
        iouSpec b a ≤ cfg.nms_threshold) :=
    (h0.sublist (List.filter_sublist _)).imp (fun h => ⟨h, by rwa [iouSpec_comm]⟩)
  exact ((sortDesc_perm _).pairwise_iff (fun h => ⟨h.2, h.1⟩)).mpr h2

/-- C6: the regions of every `SealDetector.detect` result are sorted by
non-increasing confidence. -/
theorem seal_detect_sorted_by_confidence (cfg : DetectionConfig)
    (imgW imgH : ℤ) (tr cr colr : List DetectedRegion) (page : ℤ) :
    (SealDetector.detect cfg imgW imgH tr cr colr page).regions.Pairwise
      (fun a b => b.confidence ≤ a.confidence) := by
  simp only [SealDetector.detect]
  rw [List.pairwise_map]
  exact sortDesc_sorted _

/-- C5: a region appears in the returned result only if its confidence is at
least the configured global `min_confidence` (removal of the sub-threshold
consolidated regions), and conversely every consolidated region meeting the
threshold appears in the result (with the page number stamped). -/
theorem seal_detect_min_confidence (cfg : DetectionConfig) (imgW imgH : ℤ)
    (tr cr colr : List DetectedRegion) (page : ℤ) :
    (∀ r ∈ (SealDetector.detect cfg imgW imgH tr cr colr page).regions,
      cfg.min_confidence ≤ r.confidence) ∧
    (∀ r ∈ SealDetector.consolidate_detections cfg (tr ++ cr ++ colr),
      cfg.min_confidence ≤ r.confidence →
      { r with page_num := page } ∈
        (SealDetector.detect cfg imgW imgH tr cr colr page).regions) := by
  constructor
  · intro r hr
    rw [mem_seal_detect_iff] at hr
    obtain ⟨r0, _, hconf, rfl⟩ := hr
    exact hconf
  · intro r hr hconf
    rw [mem_seal_detect_iff]
    exact ⟨r, hr, hconf, rfl⟩

/-- C9: with no loaded templates, `TemplateMatcher.detect` returns the empty
list for every configuration, correlation oracle and image size — a total
function, not an error path. -/
theorem template_matcher_detect_no_templates (cfg : DetectionConfig)
    (score : String → ℤ → ℤ → ℤ → ℤ → ℚ) (imgW imgH : ℤ) :
    TemplateMatcher.detect cfg [] score imgW imgH = [] := rfl

/-- A pathological configuration the code accepts without validation:
negative template-confidence threshold and negative global minimum
confidence. -/
def cfgBad : DetectionConfig :=
  { template_confidence_threshold := -1, template_scale_range := (1, 1),
    template_scale_steps := 1, min_confidence := -1 }

/-- The template-matching candidates under `cfgBad` for a 20×20 template on a
20×20 image whose normalized cross-correlation map is the constant −1/2
(an anti-correlated match, well inside the [−1, 1] range of
`TM_CCOEFF_NORMED`). -/
def candsBad : List DetectedRegion :=
  TemplateMatcher.detect cfgBad [("t", 20, 20)] (fun _ _ _ _ _ => -1/2) 20 20

unseal Rat.add Rat.mul Rat.inv Rat.sub in
/-- C3 (counterexample): with a config the engine accepts without validation
(negative thresholds), `SealDetector.detect` returns a region of confidence
−1/2 ∉ [0, 1]: template confidences are raw correlation scores, and nothing
clamps them once both threshold filters are negative. -/
theorem seal_detect_negative_confidence_cex :
    ∃ r ∈ (SealDetector.detect cfgBad 20 20 candsBad [] [] 0).regions,
      r.confidence < 0 := by
  decide

/-- C3 (amended: true for configurations within the documented parameter
ranges): whenever `0 ≤ min_confidence` and every candidate produced by the
three detectors has confidence ≤ 1 and positive dimensions (contour and
color candidates are clamped to [0, 1] by construction, and template
confidences are normalized correlation scores, which never exceed 1),
every region of the returned result has confidence in [0, 1] and
positive width and height. -/
theorem seal_detect_regions_in_range (cfg : DetectionConfig) (imgW imgH : ℤ)
    (tr cr colr : List DetectedRegion) (page : ℤ)
    (hmin : 0 ≤ cfg.min_confidence)
    (hcand : ∀ r ∈ tr ++ cr ++ colr,
      r.confidence ≤ 1 ∧ 0 < r.width ∧ 0 < r.height) :
    ∀ r ∈ (SealDetector.detect cfg imgW imgH tr cr colr page).regions,
      0 ≤ r.confidence ∧ r.confidence ≤ 1 ∧ 0 < r.width ∧ 0 < r.height := by
  intro r hr
  rw [mem_seal_detect_iff] at hr
  obtain ⟨r0, hcons, hconf, rfl⟩ := hr
  have hmem : r0 ∈ tr ++ cr ++ colr := by
    have := suppress_subset cfg.nms_threshold (tr ++ cr ++ colr) r0
    exact this (by simpa [SealDetector.consolidate_detections] using hcons)
  obtain ⟨h1, h2, h3⟩ := hcand r0 hmem
  exact ⟨le_trans hmin hconf, h1, h2, h3⟩

unseal Rat.add Rat.mul Rat.inv Rat.sub in
/-- C3 (witness): the amended theorem applied to the default configuration
and one well-formed candidate. -/
theorem seal_detect_regions_in_range_witness :
    (0 ≤ ({} : DetectionConfig).min_confidence ∧
      (∀ r ∈ [sampleHi] ++ [] ++ [],
        r.confidence ≤ 1 ∧ 0 < r.width ∧ 0 < r.height)) ∧
    ∀ r ∈ (SealDetector.detect {} 200 200 [sampleHi] [] [] 0).regions,
      0 ≤ r.confidence ∧ r.confidence ≤ 1 ∧ 0 < r.width ∧ 0 < r.height :=
  ⟨⟨by decide, by decide⟩,
    seal_detect_regions_in_range {} 200 200 [sampleHi] [] [] 0
      (by decide) (by decide)⟩

unseal Rat.add Rat.mul Rat.inv Rat.sub in
/-- C1 (witness): the post-consolidation IoU invariant at the default
configuration on three concrete candidates, two of which heavily overlap. -/
theorem seal_detect_pairwise_iou_witness :
    0 ≤ ({} : DetectionConfig).nms_threshold ∧
    (SealDetector.detect {} 200 200 [sampleHi] [sampleFar] [sampleLo] 1).regions.Pairwise
      (fun a b => iouSpec a b ≤ ({} : DetectionConfig).nms_threshold ∧
        iouSpec b a ≤ ({} : DetectionConfig).nms_threshold) :=
  ⟨by decide,
    seal_detect_pairwise_iou {} 200 200 [sampleHi] [sampleFar] [sampleLo] 1
      (by decide)⟩

unseal Rat.add Rat.mul Rat.inv Rat.sub in
/-- C5 (witness): the filter/keep theorem applied to a concrete candidate
whose confidence 0.9 meets the default 0.65 minimum. -/
theorem seal_detect_min_confidence_witness :
    ({} : DetectionConfig).min_confidence ≤ sampleHi.confidence ∧
    { sampleHi with page_num := 5 } ∈
      (SealDetector.detect {} 200 200 [sampleHi] [] [] 5).regions :=
  ⟨by decide,
    (seal_detect_min_confidence {} 200 200 [sampleHi] [] [] 5).2 sampleHi
      (by decide) (by decide)⟩

/-- A configuration with a single scale factor 0.1, at which a 20×20 template
would be resized to 2×2 (< 10 pixels). -/
def cfgTiny : DetectionConfig :=
  { template_scale_range := (1/10, 1/10), template_scale_steps := 1 }

unseal Rat.add Rat.mul Rat.inv Rat.sub in
/-- C4 (counterexample): with the single scale 0.1 for a 20×20 template on a
25×25 image (correlation map constantly 1), resizing would produce 2×2
(< 10 px), yet `_resize_template` falls back to the original 20×20 template
and the scale still yields candidate regions — the scale is NOT skipped. -/
theorem template_sub10_scale_not_skipped_cex :
    linspace cfgTiny.template_scale_range.1 cfgTiny.template_scale_range.2
        cfgTiny.template_scale_steps = [1/10] ∧
    (pyInt ((20 : ℚ) * (1/10)) < 10 ∧
      TemplateMatcher.resize_template 20 20 (1/10) = (20, 20)) ∧
    TemplateMatcher.match_template_multiscale cfgTiny (fun _ _ _ _ => 1)
      25 25 20 20 "t" ≠ [] := by
  decide

/-- C4 (amended): at a scale whose resize would produce a dimension below 10
pixels, only the RESIZE is skipped — the template keeps its original
dimensions at that scale, and every candidate the scale produces carries the
original template's width and height (the scale itself is dropped only when
the template does not fit inside the image). -/
theorem match_at_scale_sub10_keeps_original (cfg : DetectionConfig)
    (score : ℤ → ℤ → ℤ → ℤ → ℚ) (imgW imgH tw th : ℤ) (nm : String)
    (scale : ℚ)
    (h : pyInt ((tw : ℚ) * scale) < 10 ∨ pyInt ((th : ℚ) * scale) < 10) :
    ∀ r ∈ TemplateMatcher.match_at_scale cfg score imgW imgH tw th nm scale,
      r.width = tw ∧ r.height = th := by
  intro r hr
  have hres : TemplateMatcher.resize_template tw th scale = (tw, th) := by
    unfold TemplateMatcher.resize_template
    exact if_pos h
  simp only [TemplateMatcher.match_at_scale, hres] at hr
  split at hr
  · simp at hr
  · simp only [List.mem_flatMap, List.mem_filterMap] at hr
    obtain ⟨yy, _, xx, _, heq⟩ := hr
    split at heq
    · rw [Option.some.injEq] at heq
      subst heq
      exact ⟨rfl, rfl⟩
    · exact absurd heq (by simp)

unseal Rat.add Rat.mul Rat.inv Rat.sub in
/-- C4 (witness): the amended theorem applied at the concrete sub-10 scale
0.1 of a 20×20 template on a 25×25 image. -/
theorem match_at_scale_sub10_keeps_original_witness :
    (pyInt ((20 : ℚ) * (1/10)) < 10 ∨ pyInt ((20 : ℚ) * (1/10)) < 10) ∧
    ∀ r ∈ TemplateMatcher.match_at_scale cfgTiny (fun _ _ _ _ => 1)
        25 25 20 20 "t" (1/10),
      r.width = 20 ∧ r.height = 20 :=
  ⟨by decide,
    match_at_scale_sub10_keeps_original cfgTiny (fun _ _ _ _ => 1)
      25 25 20 20 "t" (1/10) (by decide)⟩

/-- The contour detector's confidence is clamped to [0, 1] by construction. -/
theorem contour_confidence_mem_Icc (area ar : ℚ) (w h : ℤ) (hull : ℚ) :
    0 ≤ ContourDetector.calculate_confidence area ar w h hull ∧
    ContourDetector.calculate_confidence area ar w h hull ≤ 1 := by
  unfold ContourDetector.calculate_confidence
  exact ⟨le_max_left 0 _, max_le (by norm_num) (min_le_left 1 _)⟩

/-- Confidence bound for the color detector's scoring function: with a
nonnegative circularity and, in the non-circular case, a squarish aspect
ratio (which `_detect_color_range` guarantees for every region it emits),
the score lies in [0.6, 1]. -/
theorem color_confidence_bounds (cfg : DetectionConfig) (circ area ar : ℚ)
    (b : Bool) (hcirc : 0 ≤ circ) (hrect : b = false → 1/2 < ar ∧ ar < 2) :
    3/5 ≤ ColorDetector.calculate_confidence cfg circ area ar b ∧
    ColorDetector.calculate_confidence cfg circ area ar b ≤ 1 := by
  unfold ColorDetector.calculate_confidence
  have harea : 0 ≤ (1 - min (|area - (cfg.color_min_area + cfg.color_max_area) / 2| /
      ((cfg.color_min_area + cfg.color_max_area) / 2)) 1) * (1/10) := by
    have h1 : min (|area - (cfg.color_min_area + cfg.color_max_area) / 2| /
        ((cfg.color_min_area + cfg.color_max_area) / 2)) 1 ≤ 1 := min_le_right _ _
    have h2 : 0 ≤ 1 - min (|area - (cfg.color_min_area + cfg.color_max_area) / 2| /
        ((cfg.color_min_area + cfg.color_max_area) / 2)) 1 := by linarith
    exact mul_nonneg h2 (by norm_num)
  dsimp only
  by_cases hb : b = true
  · have hbonus : 0 ≤ circ * (1/5) := mul_nonneg hcirc (by norm_num)
    rw [if_pos hb]
    constructor
    · exact le_trans (le_min (by norm_num) (by linarith)) (le_max_right 0 _)
    · exact max_le (by norm_num) (min_le_left 1 _)
  · obtain ⟨h1, h2⟩ := hrect (by simpa using hb)
    have habs : |1 - ar| < 1 := abs_lt.mpr ⟨by linarith, by linarith⟩
    have hbonus : 0 ≤ (1 - |1 - ar|) * (3/20) :=
      mul_nonneg (by linarith) (by norm_num)
    rw [if_neg hb]
    constructor
    · exact le_trans (le_min (by norm_num) (by linarith)) (le_max_right 0 _)
    · exact max_le (by norm_num) (min_le_left 1 _)

/-- C7: every region the color detector emits has confidence in [0.6, 1]:
base 0.6 plus a nonnegative shape bonus plus a nonnegative area-closeness
bonus, clamped to [0, 1].  `0 ≤ circularity` holds for the value
`4·π·area/perimeter²` the caller computes (`cv2.contourArea` is
nonnegative), and the nonzero midpoint hypothesis records that Python would
raise (emitting nothing) on a zero midpoint instead of producing a value. -/
theorem color_detect_region_confidence (cfg : DetectionConfig)
    (area perimeter circularity : ℚ) (x y w h : ℤ) (cname : String)
    (r : DetectedRegion)
    (hcirc : 0 ≤ circularity)
    (_hideal : cfg.color_min_area + cfg.color_max_area ≠ 0)
    (hr : ColorDetector.detect_region cfg area perimeter circularity
      x y w h cname = some r) :
    3/5 ≤ r.confidence ∧ r.confidence ≤ 1 := by
  unfold ColorDetector.detect_region at hr
  split at hr
  · exact absurd hr (by simp)
  split at hr
  · exact absurd hr (by simp)
  dsimp only at hr
  split at hr
  · -- bounding-box height positive: aspect ratio is w / h
    split at hr
    · rename_i hguard
      rw [Option.some.injEq] at hr
      subst hr
      refine color_confidence_bounds cfg circularity area _ _ hcirc ?_
      intro hb
      rw [hb] at hguard
      simp only [Bool.false_or, decide_eq_true_eq] at hguard
      exact hguard
    · exact absurd hr (by simp)
  · -- degenerate height: aspect ratio is 0, so the guard forces circularity
    split at hr
    · rename_i hguard
      rw [Option.some.injEq] at hr
      subst hr
      refine color_confidence_bounds cfg circularity area _ _ hcirc ?_
      intro hb
      rw [hb] at hguard
      simp only [Bool.false_or, decide_eq_true_eq] at hguard
      exact absurd hguard.1 (by norm_num)
    · exact absurd hr (by simp)

/-- The region the color detector emits for a circular blob of area 2650
(the midpoint of the default range) and circularity 0.9. -/
def colorSample : DetectedRegion :=
  { x := 0, y := 0, width := 40, height := 40, confidence := 22/25,
    detection_method := "color_detection", color := some "red" }

unseal Rat.add Rat.mul Rat.inv Rat.sub in
/-- C7 (witness): a concrete circular red blob of area 2650 and circularity
0.9 is emitted, and its confidence 22/25 lies in [0.6, 1]. -/
theorem color_detect_region_confidence_witness :
    (0 ≤ (9/10 : ℚ) ∧
      ({} : DetectionConfig).color_min_area +
        ({} : DetectionConfig).color_max_area ≠ 0 ∧
      ColorDetector.detect_region {} 2650 50 (9/10) 0 0 40 40 "red" =
        some colorSample) ∧
    3/5 ≤ colorSample.confidence ∧ colorSample.confidence ≤ 1 :=
  ⟨⟨by decide, by decide, by decide⟩,
    color_detect_region_confidence {} 2650 50 (9/10) 0 0 40 40 "red"
      colorSample (by decide) (by decide) (by decide)⟩

/-- C8: the contour detector emits a candidate for a (non-degenerate)
contour exactly when all four geometric tests pass simultaneously — area,
aspect ratio, bounding-box width and bounding-box height each strictly
inside their configured bounds; failing any single test excludes the
contour. -/
theorem contour_detect_region_iff (cfg : DetectionConfig)
    (area hull_area : ℚ) (x y w h : ℤ) :
    (ContourDetector.detect_region cfg area hull_area x y w h).isSome = true ↔
      (area ≠ 0 ∧
       (cfg.contour_min_area < area ∧ area < cfg.contour_max_area) ∧
       (cfg.contour_min_aspect_ratio < (if 0 < h then (w : ℚ) / (h : ℚ) else 0) ∧
        (if 0 < h then (w : ℚ) / (h : ℚ) else 0) < cfg.contour_max_aspect_ratio) ∧
       (cfg.contour_min_width < w ∧ w < cfg.contour_max_width) ∧
       (cfg.contour_min_height < h ∧ h < cfg.contour_max_height)) := by
  unfold ContourDetector.detect_region ContourDetector.is_signature_block
  by_cases ha : area = 0
  · simp [ha]
  · rw [if_neg ha]
    dsimp only
    split
    all_goals
      split
      · rename_i hcond
        simp only [Bool.and_eq_true, decide_eq_true_eq] at hcond
        exact iff_of_true (by simp)
          ⟨ha, hcond.1.1.1, hcond.1.1.2, hcond.1.2, hcond.2⟩
      · rename_i hcond
        refine iff_of_false (by simp) ?_
        intro hall
        exact hcond (by
          simp only [Bool.and_eq_true, decide_eq_true_eq]
          exact ⟨⟨⟨hall.2.1, hall.2.2.1⟩, hall.2.2.2.1⟩, hall.2.2.2.2⟩)

end DrawingValidator
